import Mathlib

/-!
Verification of the hike-iq analytics core against its specification.

The numeric fields of the TypeScript source (`number`) are modelled as
rationals (`ℚ`); optional fields (`number | null`) are modelled as
`Option ℚ`.  Each definition below is a direct shallow embedding of the
corresponding function of the source, with a comment pointing to its
origin.
-/

namespace HikeIQ

/-- One recorded sample (`TrackRecord` of `src/lib/types.ts`, restricted to
the fields used by the analytics core). -/
structure TrackRecord where
  elapsedTime : ℚ
  heartRate : Option ℚ
  distance : Option ℚ
  altitude : Option ℚ
  speed : Option ℚ
deriving DecidableEq

/-- A record of the valid subset: both `altitude` and `heartRate` are
known to be present, so they are stored bare.  This mirrors the use of
the non-null assertions `r.altitude!` / `r.heartRate!` after the filter
in `HeartRateRecoveryTable.tsx`. -/
structure VRec where
  elapsedTime : ℚ
  altitude : ℚ
  heartRate : ℚ
  distance : Option ℚ
deriving DecidableEq

/-- The per-record validity test of `HeartRateRecoveryTable.tsx` (lines
47-49): a record with both altitude and heart rate present yields the
corresponding `VRec`, any other record is dropped. -/
def toValid (r : TrackRecord) : Option VRec :=
  match r.altitude, r.heartRate with
  | some a, some h => some ⟨r.elapsedTime, a, h, r.distance⟩
  | _, _ => none

/-- `validRecords` of `HeartRateRecoveryTable.tsx` (lines 47-49): the
sub-sequence of samples where both altitude and heart rate are present,
re-indexed contiguously. -/
def validRecords (records : List TrackRecord) : List VRec :=
  records.filterMap toValid

/-- Indexing into the valid subset (`validRecords[i]` of the source; all
source accesses are in range, so the default is never observed there). -/
def vget (v : List VRec) (i : Nat) : VRec :=
  v.getD i ⟨0, 0, 0, none⟩

/-- Backward half of `findRecordsInTimeWindow` (lines 62-65): walk from
`i-1` down to `0`, stopping as soon as `centerTime - elapsedTime`
exceeds the window. -/
def backNeighbors (v : List VRec) (i : Nat) (w : ℚ) : List VRec :=
  ((v.take i).reverse).takeWhile fun r =>
    decide ((vget v i).elapsedTime - r.elapsedTime ≤ w)

/-- Forward half of `findRecordsInTimeWindow` (lines 67-70): walk from
`i+1` upward, stopping as soon as `elapsedTime - centerTime` exceeds the
window. -/
def fwdNeighbors (v : List VRec) (i : Nat) (w : ℚ) : List VRec :=
  (v.drop (i + 1)).takeWhile fun r =>
    decide (r.elapsedTime - (vget v i).elapsedTime ≤ w)

/-- The local-maximum test (lines 87-88): the candidate's altitude must
be `≥` the altitude of every neighbor within the 60-second window. -/
def isLocalMax (v : List VRec) (i : Nat) : Bool :=
  (backNeighbors v i 60 ++ fwdNeighbors v i 60).all fun r =>
    decide (r.altitude ≤ (vget v i).altitude)

/-- `minAfter` of the prominence check (lines 93-100): minimum altitude
seen scanning forward from `i` while the time delta stays within the
300-second prominence window, initialised with the candidate's own
altitude. -/
def minAfter (v : List VRec) (i : Nat) : ℚ :=
  ((v.drop (i + 1)).takeWhile fun r =>
      decide (r.elapsedTime - (vget v i).elapsedTime ≤ 300)).foldl
    (fun m r => if r.altitude < m then r.altitude else m)
    (vget v i).altitude

/-- `prominence` (line 102): candidate altitude minus the forward-window
minimum. -/
def prominence (v : List VRec) (i : Nat) : ℚ :=
  (vget v i).altitude - minAfter v i

/-- The spacing test (lines 106-110): accept unless a previously
accepted peak exists whose time is less than 120 seconds before the
candidate's. -/
def spacingOK (v : List VRec) (peaks : List Nat) (i : Nat) : Bool :=
  match peaks.getLast? with
  | none => true
  | some lastPeak =>
      decide (120 ≤ (vget v i).elapsedTime - (vget v lastPeak).elapsedTime)

/-- The peak-detection scan (lines 51 and 80-113): with fewer than 20
valid samples return the empty list; otherwise a single left-to-right
scan accepting indices that pass the local-maximum, prominence and
spacing tests (in source order the failing test `continue`s; the
conjunction is equivalent). -/
def detectPeaks (v : List VRec) : List Nat :=
  if v.length < 20 then []
  else
    (List.range v.length).foldl
      (fun peaks i =>
        if isLocalMax v i && decide (15 ≤ prominence v i) && spacingOK v peaks i
        then peaks ++ [i] else peaks)
      []

/-- The closest-record loop of `findHRAtOffset` (lines 124-136).  The
accumulator mirrors the pair of mutable variables `closest` /
`closestDiff`; `none` is the initial `closest = null, closestDiff = ∞`
state.  The loop breaks once the current sample's time has passed the
target and its distance exceeds the (updated) best distance. -/
def closestLoop (target : ℚ) : List VRec → Option (VRec × ℚ) → Option (VRec × ℚ)
  | [], best => best
  | r :: rest, best =>
      let diff := |r.elapsedTime - target|
      let best' : VRec × ℚ :=
        match best with
        | none => (r, diff)
        | some (b, bd) => if diff < bd then (r, diff) else (b, bd)
      if target < r.elapsedTime ∧ best'.2 < diff then some best'
      else closestLoop target rest (some best')

/-- `findHRAtOffset` (lines 121-143): search forward from the peak's
index for the record closest in time to `peakTime + offset`; return its
heart rate only when that record is within 15 seconds of the target.
(The source's `closest.heartRate !== null` check is vacuous on the
valid subset, where heart rate is always present.) -/
def findHRAtOffset (v : List VRec) (peakIdx : Nat) (offset : ℚ) : Option ℚ :=
  let targetTime := (vget v peakIdx).elapsedTime + offset
  match closestLoop targetTime (v.drop peakIdx) none with
  | none => none
  | some (closest, closestDiff) =>
      if closestDiff ≤ 15 then some closest.heartRate else none

/-- One row of the recovery table (`HillPeak` interface, lines 28-40). -/
structure HillPeak where
  index : Nat
  elapsedTime : ℚ
  altitude : ℚ
  peakHR : ℚ
  hr1min : Option ℚ
  hr2min : Option ℚ
  hr5min : Option ℚ
  recovery1min : Option ℚ
  recovery2min : Option ℚ
  recovery5min : Option ℚ
  distance : ℚ
deriving DecidableEq

/-- Construction of one `HillPeak` row (lines 116-164). -/
def mkHillPeak (v : List VRec) (peakIdx : Nat) : HillPeak :=
  let peakRecord := vget v peakIdx
  let hr1min := findHRAtOffset v peakIdx 60
  let hr2min := findHRAtOffset v peakIdx 120
  let hr5min := findHRAtOffset v peakIdx 300
  let peakHR := peakRecord.heartRate
  { index := peakIdx
    elapsedTime := peakRecord.elapsedTime
    altitude := peakRecord.altitude
    peakHR := peakHR
    hr1min := hr1min
    hr2min := hr2min
    hr5min := hr5min
    recovery1min := hr1min.map fun h => peakHR - h
    recovery2min := hr2min.map fun h => peakHR - h
    recovery5min := hr5min.map fun h => peakHR - h
    distance := peakRecord.distance.getD 0 / 1000 }

/-- `hillPeaks` (lines 45-173): detected peaks mapped to rows, keeping
only rows with at least one recovery value (lines 166-172). -/
def hillPeaks (records : List TrackRecord) : List HillPeak :=
  let v := validRecords records
  ((detectPeaks v).map (mkHillPeak v)).filter fun p =>
    p.recovery1min.isSome || p.recovery2min.isSome || p.recovery5min.isSome

/-- Spec-side reading of prominence (spec §4.4 step 2 / claims about
"the minimum altitude among valid-subset samples within the following
300 seconds"): the same forward 300-second window expressed as a
`filter` instead of the scan's `takeWhile`, folded with `min`.  For a
series with non-decreasing `elapsedTime` the two coincide. -/
def minAltWithin (v : List VRec) (i : Nat) : ℚ :=
  ((v.drop (i + 1)).filter fun r =>
      decide (r.elapsedTime - (vget v i).elapsedTime ≤ 300)).foldl
    (fun m r => min m r.altitude)
    (vget v i).altitude

/-- Index-aware filter, the shape of TypeScript's
`filter((_, i) => p i)`: keep the elements whose position (counted from
`k`) satisfies `p`. -/
def filterIdxFrom (p : Nat → Bool) : Nat → List α → List α
  | _, [] => []
  | k, a :: l =>
      if p k then a :: filterIdxFrom p (k + 1) l else filterIdxFrom p (k + 1) l

/-- The stride downsampler (`ElevationAnalysisChart.tsx` lines 32-34 and
the pace chart's identical lines, with the point budget `M`
generalised from the literal 300):
`step = ceil(n / M)` then `points.filter((_, i) => i % step === 0)`. -/
def downsample (M : Nat) (l : List α) : List α :=
  let step := (l.length + M - 1) / M
  filterIdxFrom (fun i => i % step == 0) 0 l

/-- The index list `0, s, 2s, …` of the downsample contract: all
multiples of `s` below `n`, written as the strided image of a range. -/
def stridedIndices (n s : Nat) : List Nat :=
  (List.range ((n + s - 1) / s)).map fun k => k * s

/-- A point of the elevation chart after its validity filter
(`ElevationAnalysisChart.tsx` lines 26-30): `distance`, `altitude` and
`elapsedTime` are all present. -/
structure EPoint where
  distance : ℚ
  altitude : ℚ
  elapsedTime : ℚ
deriving DecidableEq

/-- Indexing into the elevation-chart point list. -/
def eget (arr : List EPoint) (i : Nat) : EPoint :=
  arr.getD i ⟨0, 0, 0⟩

/-- The vertical-rate (VAM) estimator of `ElevationAnalysisChart.tsx`
(lines 43-60) in SI mode (`units = "metric"`, so the elevation
conversion factor is 1 and the clamp is ±2000): secant slope over the
index window `[i-5, i+5]`, time measured in hours, zero when the time
span is at most 0.001 h (= 3.6 s), then clamped by the two successive
reassignments of the source.  (`Nat` subtraction makes `i - 5` the
source's `Math.max(0, i - windowSize)`.) -/
def vamAt (arr : List EPoint) (i : Nat) : ℚ :=
  let startIdx := i - 5
  let endIdx := min (arr.length - 1) (i + 5)
  let startP := eget arr startIdx
  let endP := eget arr endIdx
  let timeDiff := (endP.elapsedTime - startP.elapsedTime) / 3600
  let altDiffMeters := endP.altitude - startP.altitude
  let vam := if 1 / 1000 < timeDiff then altDiffMeters / timeDiff else 0
  let vam2 := if 2000 < vam then 2000 else vam
  if vam2 < -2000 then -2000 else vam2

/-- The vertical-rate estimate as the claim words it: boundary indices
`lo = max(0, i − W)`, `hi = min(n − 1, i + W)` with `W = 5`; rate
`(altitude[hi] − altitude[lo]) / (elapsedTime[hi] − elapsedTime[lo])`
scaled to a per-hour unit; `0` when the time span (seconds) is at most
the epsilon 3.6 s; clamped to ±2000 units/hour. -/
def vamSpecAt (arr : List EPoint) (i : Nat) : ℚ :=
  let lo := (max 0 ((i : ℤ) - 5)).toNat
  let hi := min (arr.length - 1) (i + 5)
  let p := eget arr lo
  let q := eget arr hi
  let span := q.elapsedTime - p.elapsedTime
  let rate := if 18 / 5 < span then (q.altitude - p.altitude) * 3600 / span else 0
  max (-2000) (min 2000 rate)

/-- A point of the pace/heart-rate chart after its validity filter
(`PaceHeartRateChart`, `src/unnamed/part_002`): `distance`, `heartRate`
and `speed` are all present. -/
structure PPoint where
  distance : ℚ
  heartRate : ℚ
  speed : ℚ
deriving DecidableEq

/-- The centered index window `[max(0, i−5), min(n−1, i+5)]` of the pace
estimator, as the corresponding slice of the point list. -/
def paceWindow (arr : List PPoint) (i : Nat) : List PPoint :=
  (arr.drop (i - 5)).take (min (arr.length - 1) (i + 5) + 1 - (i - 5))

/-- The smoothed average speed of the pace estimator
(`PaceHeartRateChart`, the `sumSpeed`/`count` loop): accumulate sum and
count over the window, skipping samples whose `speed` is falsy (the
source's `if (arr[j].speed)`, which on the pre-filtered points skips
exactly the zero speeds); `0` when no sample counted. -/
def avgSpeedAt (arr : List PPoint) (i : Nat) : ℚ :=
  let sc :=
    (paceWindow arr i).foldl
      (fun (p : ℚ × Nat) r => if r.speed ≠ 0 then (p.1 + r.speed, p.2 + 1) else p)
      (0, 0)
  if 0 < sc.2 then sc.1 / sc.2 else 0

/-- The reported pace of the pace estimator in SI mode
(`paceMeters = 1000`): `(1000 / avgSpeed) / 60` minutes per km when the
average speed exceeds 0.1 m/s, the stationary sentinel `0` otherwise,
then capped at 20. -/
def paceAt (arr : List PPoint) (i : Nat) : ℚ :=
  let avgSpeed := avgSpeedAt arr i
  let pace := if 1 / 10 < avgSpeed then 1000 / avgSpeed / 60 else 0
  if 20 < pace then 20 else pace

/-- The pace estimate as the claim words it: the average speed is the
true arithmetic mean of the present speed values of the window (on
these points every speed is present, zeroes included); pace is the
stationary sentinel `0` when that average is below 0.1 m/s, and
otherwise `(1000 / avg) / 60` clamped to at most 20. -/
def claimPaceAt (arr : List PPoint) (i : Nat) : ℚ :=
  let w := paceWindow arr i
  let avg := (w.map fun r => r.speed).sum / w.length
  if avg < 1 / 10 then 0 else min 20 (1000 / avg / 60)

/-- The pace estimate as the amended claim words it: the average speed
is the arithmetic mean of the present *nonzero* speed values of the
window (zero speeds are skipped like absent ones, `0` if none remain);
pace is the stationary sentinel `0` when that average is 0.1 m/s or
below, and otherwise `(1000 / avg) / 60` clamped to at most 20. -/
def amendedPaceSpecAt (arr : List PPoint) (i : Nat) : ℚ :=
  let nz := (paceWindow arr i).filter fun r => decide (r.speed ≠ 0)
  let avg := if nz.length = 0 then 0 else (nz.map fun r => r.speed).sum / nz.length
  if avg ≤ 1 / 10 then 0 else min 20 (1000 / avg / 60)

/-! ### Helper lemmas -/

/-- A property preserved by every step of a fold holds of its result. -/
lemma foldl_inv {α β : Type*} (f : α → β → α) (P : α → Prop) :
    ∀ (l : List β) (a : α), P a → (∀ x b, b ∈ l → P x → P (f x b)) → P (l.foldl f a) := by
  intro l
  induction l with
  | nil => intro a ha _; exact ha
  | cons b t ih =>
      intro a ha hstep
      simp only [List.foldl_cons]
      exact ih (f a b) (hstep a b (by simp) ha)
        fun x c hc hx => hstep x c (by simp [hc]) hx

/-- On a list sorted for a relation along which the predicate is
downward closed, the scan-with-break (`takeWhile`) sees exactly the
elements a full `filter` would keep. -/
lemma takeWhile_eq_filter_of_pairwise {α : Type*} {R : α → α → Prop} {p : α → Bool}
    (hmono : ∀ a b, R a b → p b = true → p a = true) :
    ∀ {l : List α}, l.Pairwise R → l.takeWhile p = l.filter p := by
  intro l
  induction l with
  | nil => intro _; rfl
  | cons a t ih =>
      intro hp
      rcases List.pairwise_cons.mp hp with ⟨hra, hpt⟩
      by_cases hpa : p a = true
      · rw [List.takeWhile_cons_of_pos hpa, List.filter_cons_of_pos hpa, ih hpt]
      · rw [List.takeWhile_cons_of_neg hpa, List.filter_cons_of_neg hpa]
        exact (List.filter_eq_nil_iff.mpr fun b hb hpb =>
          hpa (hmono a b (hra b hb) hpb)).symm

/-- The source's `if (x < m) then x else m` update is `min`. -/
lemma ite_lt_eq_min (m x : ℚ) : (if x < m then x else m) = min m x := by
  rcases le_or_lt m x with h | h
  · rw [if_neg (not_lt.mpr h), min_eq_left h]
  · rw [if_pos h, min_eq_right h.le]

/-- A chain for a transitive relation is pairwise related. -/
lemma chain_to_pairwise {α : Type*} {R : α → α → Prop}
    (tr : ∀ a b c, R a b → R b c → R a c) :
    ∀ {l : List α}, l.Chain' R → l.Pairwise R := by
  intro l
  induction l with
  | nil => intro _; exact List.Pairwise.nil
  | cons a t ih =>
      intro h
      cases t with
      | nil => exact List.pairwise_cons.mpr ⟨by simp, List.Pairwise.nil⟩
      | cons b t2 =>
          have h2 := List.chain'_cons.mp h
          have hp := ih h2.2
          refine List.pairwise_cons.mpr ⟨?_, hp⟩
          intro x hx
          rcases List.mem_cons.mp hx with rfl | hx2
          · exact h2.1
          · exact tr _ _ _ h2.1 ((List.pairwise_cons.mp hp).1 x hx2)

/-- The valid record produced by a sample carries its `elapsedTime`. -/
lemma toValid_elapsedTime {r : TrackRecord} {x : VRec} (hx : x ∈ toValid r) :
    x.elapsedTime = r.elapsedTime := by
  rcases ha : r.altitude with _ | a <;> rcases hh : r.heartRate with _ | h <;>
    simp [toValid, ha, hh] at hx
  rw [← hx]

/-- The validity filter preserves a non-decreasing time order. -/
lemma validRecords_pairwise_le {records : List TrackRecord}
    (h : records.Pairwise fun a b => a.elapsedTime ≤ b.elapsedTime) :
    (validRecords records).Pairwise fun a b => a.elapsedTime ≤ b.elapsedTime := by
  rw [validRecords, List.pairwise_filterMap]
  refine h.imp ?_
  intro a b hab x hx y hy
  rw [toValid_elapsedTime hx, toValid_elapsedTime hy]
  exact hab

/-- Non-decreasing `elapsedTime` of the input series, stated as the
series invariant of spec §3: each consecutive pair is ordered. -/
def TimeSorted (records : List TrackRecord) : Prop :=
  records.Chain' fun a b => a.elapsedTime ≤ b.elapsedTime

/-- The series invariant gives a pairwise-ordered valid subset. -/
lemma validRecords_pairwise_of_timeSorted {records : List TrackRecord}
    (h : TimeSorted records) :
    (validRecords records).Pairwise fun a b => a.elapsedTime ≤ b.elapsedTime := by
  have h2 : records.Chain' fun a b => a.elapsedTime ≤ b.elapsedTime := h
  refine validRecords_pairwise_le (chain_to_pairwise ?_ h2)
  exact fun _ _ _ ha hb => le_trans ha hb

/-- An in-range `vget` is a member of the list. -/
lemma vget_mem {v : List VRec} {i : Nat} (hi : i < v.length) : vget v i ∈ v := by
  rw [vget, List.getD_eq_getElem _ _ hi]
  exact List.getElem_mem hi

/-- Elements of a forward scan (`takeWhile` after `drop`) are elements
of the underlying list. -/
lemma mem_of_mem_takeWhile_drop {v : List VRec} {p : VRec → Bool} {n : Nat} {r : VRec}
    (h : r ∈ (v.drop n).takeWhile p) : r ∈ v :=
  ((List.takeWhile_sublist p).trans (List.drop_sublist n v)).subset h

/-- Folding the source's minimum update over a constant-altitude list
leaves the initial value unchanged. -/
lemma fold_min_const (c : ℚ) :
    ∀ (l : List VRec), (∀ r ∈ l, r.altitude = c) →
      l.foldl (fun m r => if r.altitude < m then r.altitude else m) c = c := by
  intro l
  induction l with
  | nil => intro _; rfl
  | cons a t ih =>
      intro h
      have ha := h a (by simp)
      simp only [List.foldl_cons, ha, lt_irrefl, if_false]
      exact ih fun r hr => h r (by simp [hr])

/-- On a constant-altitude valid subset the forward-window minimum is
that constant. -/
lemma minAfter_const {v : List VRec} {c : ℚ} (hc : ∀ r ∈ v, r.altitude = c)
    {i : Nat} (hi : i < v.length) : minAfter v i = c := by
  rw [minAfter, hc _ (vget_mem hi)]
  exact fold_min_const c _ fun r hr => hc r (mem_of_mem_takeWhile_drop hr)

/-- On a time-sorted valid subset the prominence scan's `takeWhile`
window is the full filtered 300-second window, and the source's
conditional update is `min`: `minAfter` agrees with the claim-side
`minAltWithin`. -/
lemma minAfter_eq_minAltWithin {v : List VRec}
    (hp : v.Pairwise fun a b => a.elapsedTime ≤ b.elapsedTime) (i : Nat) :
    minAfter v i = minAltWithin v i := by
  rw [minAfter, minAltWithin]
  have hdrop : (v.drop (i + 1)).Pairwise fun a b => a.elapsedTime ≤ b.elapsedTime :=
    List.Pairwise.sublist (List.drop_sublist (i + 1) v) hp
  have hmono : ∀ a b : VRec, a.elapsedTime ≤ b.elapsedTime →
      decide (b.elapsedTime - (vget v i).elapsedTime ≤ 300) = true →
      decide (a.elapsedTime - (vget v i).elapsedTime ≤ 300) = true := by
    intro a b hab hb
    rw [decide_eq_true_eq] at hb ⊢
    linarith
  rw [takeWhile_eq_filter_of_pairwise hmono hdrop]
  congr 1
  funext m r
  exact ite_lt_eq_min m r.altitude

/-- Invariant of the peak-accepting fold: the accepted list is chained
with gaps of at least 120 seconds (so by the spacing guard), and every
accepted index passed the prominence guard. -/
lemma detectPeaks_inv (v : List VRec) :
    (detectPeaks v).Chain'
      (fun i j => (vget v i).elapsedTime + 120 ≤ (vget v j).elapsedTime) ∧
    ∀ i ∈ detectPeaks v, 15 ≤ prominence v i := by
  rw [detectPeaks]
  by_cases hlen : v.length < 20
  · rw [if_pos hlen]
    exact ⟨List.chain'_nil, by simp⟩
  · rw [if_neg hlen]
    refine foldl_inv _
      (fun (acc : List Nat) => acc.Chain'
          (fun i j => (vget v i).elapsedTime + 120 ≤ (vget v j).elapsedTime) ∧
        ∀ i ∈ acc, 15 ≤ prominence v i)
      _ _ ⟨List.chain'_nil, by simp⟩ ?_
    intro acc i _ hacc
    obtain ⟨hchain, hprom⟩ := hacc
    by_cases hcond :
        (isLocalMax v i && decide (15 ≤ prominence v i) && spacingOK v acc i) = true
    · rw [if_pos hcond]
      simp only [Bool.and_eq_true] at hcond
      obtain ⟨⟨_, hpr⟩, hsp⟩ := hcond
      constructor
      · rw [List.chain'_append]
        refine ⟨hchain, List.chain'_singleton i, ?_⟩
        intro x hx y hy
        simp only [List.head?_cons, Option.mem_some_iff] at hy
        subst hy
        rw [Option.mem_def] at hx
        rw [spacingOK, hx] at hsp
        have := of_decide_eq_true hsp
        linarith
      · intro j hj
        rcases List.mem_append.mp hj with hj2 | hj2
        · exact hprom j hj2
        · simp only [List.mem_singleton] at hj2
          subst hj2
          exact of_decide_eq_true hpr
    · rw [if_neg hcond]
      exact ⟨hchain, hprom⟩

/-- Once the closest-record loop holds a candidate it always returns
one. -/
lemma closestLoop_isSome (target : ℚ) :
    ∀ (l : List VRec) (p : VRec × ℚ), ∃ q, closestLoop target l (some p) = some q := by
  intro l
  induction l with
  | nil => intro p; exact ⟨p, rfl⟩
  | cons r rest ih =>
      intro p
      obtain ⟨b, bd⟩ := p
      simp only [closestLoop]
      by_cases hc : target < r.elapsedTime ∧
          (if |r.elapsedTime - target| < bd then (r, |r.elapsedTime - target|)
           else (b, bd)).2 < |r.elapsedTime - target|
      · rw [if_pos hc]
        exact ⟨_, rfl⟩
      · rw [if_neg hc]
        exact ih _

/-- The closest-record loop on a non-empty list returns a candidate. -/
lemma closestLoop_ne_none (target : ℚ) :
    ∀ (l : List VRec), l ≠ [] → ∃ q, closestLoop target l none = some q := by
  intro l hl
  cases l with
  | nil => exact absurd rfl hl
  | cons r rest =>
      simp only [closestLoop, lt_irrefl, and_false, if_false]
      exact closestLoop_isSome target rest _

/-- Consistency and provenance of the closest-record loop: the returned
distance is the distance of the returned record to the target, and the
returned record comes from the scanned list (or was the incoming
candidate). -/
lemma closestLoop_consistent (target : ℚ) :
    ∀ (l : List VRec) (best : Option (VRec × ℚ)),
      (∀ x y, best = some (x, y) → y = |x.elapsedTime - target|) →
      ∀ q, closestLoop target l best = some q →
        q.2 = |q.1.elapsedTime - target| ∧ (q.1 ∈ l ∨ best = some q) := by
  intro l
  induction l with
  | nil =>
      intro best hinv q hq
      rw [closestLoop] at hq
      obtain ⟨q1, q2⟩ := q
      exact ⟨hinv q1 q2 hq, Or.inr hq⟩
  | cons r rest ih =>
      intro best hinv q hq
      rcases best with _ | ⟨b, bd⟩
      · simp only [closestLoop, lt_irrefl, and_false, if_false] at hq
        have h2 := ih (some (r, |r.elapsedTime - target|))
          (by intro x y hxy; cases hxy; rfl) q hq
        rcases h2 with ⟨hcons, hmem | hbest⟩
        · exact ⟨hcons, Or.inl (by simp [hmem])⟩
        · cases hbest
          exact ⟨hcons, Or.inl (by simp)⟩
      · have hbd := hinv b bd rfl
        simp only [closestLoop] at hq
        by_cases hlt : |r.elapsedTime - target| < bd
        · rw [if_pos hlt] at hq
          by_cases hbr : target < r.elapsedTime ∧
              (r, |r.elapsedTime - target|).2 < |r.elapsedTime - target|
          · rw [if_pos hbr] at hq
            cases hq
            exact ⟨rfl, Or.inl (by simp)⟩
          · rw [if_neg hbr] at hq
            have h2 := ih (some (r, |r.elapsedTime - target|))
              (by intro x y hxy; cases hxy; rfl) q hq
            rcases h2 with ⟨hcons, hmem | hbest⟩
            · exact ⟨hcons, Or.inl (by simp [hmem])⟩
            · cases hbest
              exact ⟨hcons, Or.inl (by simp)⟩
        · rw [if_neg hlt] at hq
          by_cases hbr : target < r.elapsedTime ∧ (b, bd).2 < |r.elapsedTime - target|
          · rw [if_pos hbr] at hq
            cases hq
            exact ⟨hbd, Or.inr rfl⟩
          · rw [if_neg hbr] at hq
            have h2 := ih (some (b, bd))
              (by intro x y hxy; cases hxy; exact hbd) q hq
            rcases h2 with ⟨hcons, hmem | hbest⟩
            · exact ⟨hcons, Or.inl (by simp [hmem])⟩
            · cases hbest
              exact ⟨hcons, Or.inr rfl⟩

/-- Minimality of the closest-record loop on a time-sorted list: the
one-sided early break never hides a closer sample, so the returned
distance is a lower bound of every scanned sample's distance to the
target (and of the incoming candidate's distance). -/
lemma closestLoop_min (target : ℚ) :
    ∀ (l : List VRec) (best : Option (VRec × ℚ)),
      l.Pairwise (fun a b => a.elapsedTime ≤ b.elapsedTime) →
      (∀ x y, best = some (x, y) → y = |x.elapsedTime - target|) →
      ∀ q, closestLoop target l best = some q →
        (∀ s ∈ l, q.2 ≤ |s.elapsedTime - target|) ∧
        (∀ x y, best = some (x, y) → q.2 ≤ y) := by
  intro l
  induction l with
  | nil =>
      intro best _ _ q hq
      rw [closestLoop] at hq
      refine ⟨by simp, ?_⟩
      intro x y hxy
      rw [hxy] at hq
      cases hq
      exact le_refl _
  | cons r rest ih =>
      intro best hpair hinv q hq
      obtain ⟨hhead, htail⟩ := List.pairwise_cons.mp hpair
      -- the updated candidate, by cases on the incoming one
      rcases best with _ | ⟨b, bd⟩
      · simp only [closestLoop, lt_irrefl, and_false, if_false] at hq
        have h2 := ih (some (r, |r.elapsedTime - target|)) htail
          (by intro x y hxy; cases hxy; rfl) q hq
        rcases h2 with ⟨hmin, hbestle⟩
        have hqr : q.2 ≤ |r.elapsedTime - target| := hbestle r _ rfl
        refine ⟨?_, by simp⟩
        intro s hs
        rcases List.mem_cons.mp hs with rfl | hs2
        · exact hqr
        · exact hmin s hs2
      · have hbd := hinv b bd rfl
        simp only [closestLoop] at hq
        by_cases hlt : |r.elapsedTime - target| < bd
        · rw [if_pos hlt] at hq
          by_cases hbr : target < r.elapsedTime ∧
              (r, |r.elapsedTime - target|).2 < |r.elapsedTime - target|
          · exact absurd hbr.2 (lt_irrefl _)
          · rw [if_neg hbr] at hq
            have h2 := ih (some (r, |r.elapsedTime - target|)) htail
              (by intro x y hxy; cases hxy; rfl) q hq
            rcases h2 with ⟨hmin, hbestle⟩
            have hqr : q.2 ≤ |r.elapsedTime - target| := hbestle r _ rfl
            refine ⟨?_, ?_⟩
            · intro s hs
              rcases List.mem_cons.mp hs with rfl | hs2
              · exact hqr
              · exact hmin s hs2
            · intro x y hxy
              cases hxy
              exact le_trans hqr hlt.le
        · rw [if_neg hlt] at hq
          have hble : bd ≤ |r.elapsedTime - target| := not_lt.mp hlt
          by_cases hbr : target < r.elapsedTime ∧ (b, bd).2 < |r.elapsedTime - target|
          · rw [if_pos hbr] at hq
            cases hq
            refine ⟨?_, ?_⟩
            · intro s hs
              rcases List.mem_cons.mp hs with rfl | hs2
              · exact hble
              · have hts : r.elapsedTime ≤ s.elapsedTime := hhead s hs2
                have h1 : r.elapsedTime - target ≤ s.elapsedTime - target := by linarith
                have h2 : r.elapsedTime - target ≤ |s.elapsedTime - target| :=
                  le_trans h1 (le_abs_self _)
                have h3 : |r.elapsedTime - target| = r.elapsedTime - target :=
                  abs_of_pos (by linarith [hbr.1])
                calc (b, bd).2 ≤ |r.elapsedTime - target| := hble
                  _ = r.elapsedTime - target := h3
                  _ ≤ |s.elapsedTime - target| := h2
            · intro x y hxy
              cases hxy
              exact le_refl _
          · rw [if_neg hbr] at hq
            have h2 := ih (some (b, bd)) htail
              (by intro x y hxy; cases hxy; exact hbd) q hq
            rcases h2 with ⟨hmin, hbestle⟩
            have hqb : q.2 ≤ bd := hbestle b bd rfl
            refine ⟨?_, ?_⟩
            · intro s hs
              rcases List.mem_cons.mp hs with rfl | hs2
              · exact le_trans hqb hble
              · exact hmin s hs2
            · intro x y hxy
              cases hxy
              exact hqb

/-- On a time-sorted valid subset the backward neighbor scan sees the
whole backward 60-second window. -/
lemma backNeighbors_eq_filter {v : List VRec}
    (hp : v.Pairwise fun a b => a.elapsedTime ≤ b.elapsedTime) (i : Nat) :
    backNeighbors v i 60 = ((v.take i).reverse).filter
      (fun r => decide ((vget v i).elapsedTime - r.elapsedTime ≤ 60)) := by
  rw [backNeighbors]
  exact @takeWhile_eq_filter_of_pairwise VRec
    (fun a b => b.elapsedTime ≤ a.elapsedTime)
    (fun r => decide ((vget v i).elapsedTime - r.elapsedTime ≤ 60))
    (by
      intro a b hab hb
      rw [decide_eq_true_eq] at hb ⊢
      linarith)
    ((v.take i).reverse)
    (by
      rw [List.pairwise_reverse]
      exact List.Pairwise.sublist (List.take_sublist i v) hp)

/-- On a time-sorted valid subset the forward neighbor scan sees the
whole forward 60-second window. -/
lemma fwdNeighbors_eq_filter {v : List VRec}
    (hp : v.Pairwise fun a b => a.elapsedTime ≤ b.elapsedTime) (i : Nat) :
    fwdNeighbors v i 60 = (v.drop (i + 1)).filter
      (fun r => decide (r.elapsedTime - (vget v i).elapsedTime ≤ 60)) := by
  rw [fwdNeighbors]
  exact @takeWhile_eq_filter_of_pairwise VRec
    (fun a b => a.elapsedTime ≤ b.elapsedTime)
    (fun r => decide (r.elapsedTime - (vget v i).elapsedTime ≤ 60))
    (by
      intro a b hab hb
      rw [decide_eq_true_eq] at hb ⊢
      linarith)
    (v.drop (i + 1))
    (List.Pairwise.sublist (List.drop_sublist (i + 1) v) hp)



/-- An element at position at least `n` is in `drop n`. -/
lemma get_mem_drop {v : List VRec} {n j : Nat} (hj : j < v.length) (hnj : n ≤ j) :
    v.get ⟨j, hj⟩ ∈ v.drop n := by
  rw [List.mem_iff_getElem]
  refine ⟨j - n, by rw [List.length_drop]; omega, ?_⟩
  rw [List.getElem_drop]
  have hidx : n + (j - n) = j := by omega
  simp_rw [hidx]
  rfl

/-- An element at position below `n` is in `take n`. -/
lemma get_mem_take {v : List VRec} {n j : Nat} (hj : j < v.length) (hnj : j < n) :
    v.get ⟨j, hj⟩ ∈ v.take n := by
  rw [List.mem_iff_getElem]
  refine ⟨j, by simp [List.length_take]; omega, ?_⟩
  rw [List.getElem_take]
  rfl

/-- Characterisation of the local-maximum test on a time-sorted valid
subset: index `i` passes exactly when its altitude is at least that of
every other sample whose `elapsedTime` is within 60 seconds of its
own. -/
lemma isLocalMax_iff {v : List VRec}
    (hp : v.Pairwise fun a b => a.elapsedTime ≤ b.elapsedTime)
    {i : Nat} (hi : i < v.length) :
    isLocalMax v i = true ↔
      ∀ (j : Nat) (hj : j < v.length), j ≠ i →
        |(v.get ⟨j, hj⟩).elapsedTime - (vget v i).elapsedTime| ≤ 60 →
        (v.get ⟨j, hj⟩).altitude ≤ (vget v i).altitude := by
  have hvi : vget v i = v.get ⟨i, hi⟩ := by
    rw [vget, List.getD_eq_getElem _ _ hi]
    rfl
  have hptimes : ∀ (a b : Nat) (ha : a < v.length) (hb : b < v.length), a < b →
      (v.get ⟨a, ha⟩).elapsedTime ≤ (v.get ⟨b, hb⟩).elapsedTime := by
    intro a b ha hb hab
    have h2 := List.pairwise_iff_getElem.mp hp a b ha hb hab
    simpa using h2
  rw [isLocalMax, List.all_append, Bool.and_eq_true, List.all_eq_true, List.all_eq_true,
    backNeighbors_eq_filter hp i, fwdNeighbors_eq_filter hp i]
  constructor
  · rintro ⟨hback, hfwd⟩ j hj hne habs
    rcases Nat.lt_or_ge j i with hji | hij
    · have hle := hptimes j i hj hi hji
      have hmem : v.get ⟨j, hj⟩ ∈ ((v.take i).reverse).filter
          (fun r => decide ((vget v i).elapsedTime - r.elapsedTime ≤ 60)) := by
        rw [List.mem_filter, List.mem_reverse]
        refine ⟨get_mem_take hj hji, ?_⟩
        rw [decide_eq_true_eq, hvi]
        rw [hvi, abs_of_nonpos (by linarith), neg_sub] at habs
        linarith
      have h3 := hback _ hmem
      rw [decide_eq_true_eq] at h3
      exact h3
    · have hij2 : i < j := lt_of_le_of_ne hij (Ne.symm hne)
      have hle := hptimes i j hi hj hij2
      have hmem : v.get ⟨j, hj⟩ ∈ (v.drop (i + 1)).filter
          (fun r => decide (r.elapsedTime - (vget v i).elapsedTime ≤ 60)) := by
        rw [List.mem_filter]
        refine ⟨get_mem_drop hj (by omega), ?_⟩
        rw [decide_eq_true_eq, hvi]
        rw [hvi, abs_of_nonneg (by linarith)] at habs
        linarith
      have h3 := hfwd _ hmem
      rw [decide_eq_true_eq] at h3
      exact h3
  · intro hall
    constructor
    · intro r hr
      rw [List.mem_filter, List.mem_reverse, List.mem_iff_getElem] at hr
      obtain ⟨⟨j, hjlen, hjr⟩, hpred⟩ := hr
      have hjlen2 : j < v.length := by
        have := List.length_take i v
        omega
      have hji : j < i := by
        have := List.length_take i v
        omega
      have hjr2 : v.get ⟨j, hjlen2⟩ = r := by
        rw [← hjr, List.getElem_take]
        rfl
      rw [decide_eq_true_eq]
      rw [decide_eq_true_eq] at hpred
      have hle2 : r.elapsedTime ≤ (vget v i).elapsedTime := by
        rw [hvi, ← hjr2]
        exact hptimes j i hjlen2 hi hji
      have habs : |r.elapsedTime - (vget v i).elapsedTime| ≤ 60 := by
        rw [abs_of_nonpos (by linarith), neg_sub]
        linarith
      have h4 := hall j hjlen2 (by omega) (by rw [hjr2]; exact habs)
      rw [hjr2] at h4
      exact h4
    · intro r hr
      rw [List.mem_filter, List.mem_iff_getElem] at hr
      obtain ⟨⟨k, hklen, hkr⟩, hpred⟩ := hr
      have hklen2 : i + 1 + k < v.length := by
        have := List.length_drop (i + 1) v
        omega
      have hkr2 : v.get ⟨i + 1 + k, hklen2⟩ = r := by
        rw [← hkr, List.getElem_drop]
        rfl
      rw [decide_eq_true_eq]
      rw [decide_eq_true_eq] at hpred
      have hle2 : (vget v i).elapsedTime ≤ r.elapsedTime := by
        rw [hvi, ← hkr2]
        exact hptimes i (i + 1 + k) hi hklen2 (by omega)
      have habs : |r.elapsedTime - (vget v i).elapsedTime| ≤ 60 := by
        rw [abs_of_nonneg (by linarith)]
        linarith
      have h4 := hall (i + 1 + k) hklen2 (by omega) (by rw [hkr2]; exact habs)
      rw [hkr2] at h4
      exact h4

/-- The index-aware filter keeps exactly the elements of the positions
(counted from `k`) accepted by the predicate, in order. -/
lemma filterIdxFrom_eq {α : Type*} (p : Nat → Bool) (d : α) :
    ∀ (l : List α) (k : Nat),
      filterIdxFrom p k l =
        ((List.range l.length).filter fun i => p (k + i)).map fun i => l.getD i d := by
  intro l
  induction l with
  | nil => intro k; rfl
  | cons a t ih =>
      intro k
      have htail : List.map ((fun i => (a :: t).getD i d) ∘ Nat.succ)
          (List.filter ((fun i => p (k + i)) ∘ Nat.succ) (List.range t.length)) =
          filterIdxFrom p (k + 1) t := by
        rw [ih (k + 1)]
        have hfilt : List.filter ((fun i => p (k + i)) ∘ Nat.succ) (List.range t.length) =
            List.filter (fun i => p (k + 1 + i)) (List.range t.length) := by
          apply List.filter_congr
          intro x _
          simp only [Function.comp, Nat.succ_eq_add_one]
          congr 1
          omega
        rw [hfilt]
        congr 1
      rw [filterIdxFrom, List.length_cons, List.range_succ_eq_map, List.filter_cons,
        List.filter_map]
      by_cases hp0 : p k = true
      · have hp : p (k + 0) = true := by simpa using hp0
        rw [if_pos hp0, if_pos hp, List.map_cons, List.map_map, htail]
        rfl
      · have hp : ¬ p (k + 0) = true := by simpa using hp0
        rw [if_neg hp0, if_neg hp, List.map_map, htail]

/-- The positions divisible by the stride `s` below `n` are exactly the
strided indices `0, s, 2s, …`. -/
lemma range_filter_mod_eq_strided (s : Nat) (hs : 0 < s) :
    ∀ n : Nat, (List.range n).filter (fun i => i % s == 0) = stridedIndices n s := by
  intro n
  induction n with
  | zero =>
      rw [stridedIndices]
      have h0 : (0 + s - 1) / s = 0 := Nat.div_eq_of_lt (by omega)
      rw [h0]
      rfl
  | succ n ih =>
      rw [List.range_succ, List.filter_append, ih, stridedIndices, stridedIndices]
      have hm : (n + 1 + s - 1) / s = (n + s - 1) / s + if s ∣ n then 1 else 0 := by
        have h1 : n + 1 + s - 1 = (n + s - 1) + 1 := by omega
        rw [h1, Nat.succ_div]
        have h2 : s ∣ n + s - 1 + 1 ↔ s ∣ n := by
          have h3 : n + s - 1 + 1 = n + s := by omega
          rw [h3]
          exact Nat.dvd_add_self_right
        simp [h2]
      by_cases hdvd : s ∣ n
      · rw [hm, if_pos hdvd]
        have hq : (n + s - 1) / s = n / s := by
          obtain ⟨q, hq2⟩ := hdvd
          subst hq2
          rcases Nat.eq_zero_or_pos q with rfl | hqpos
          · have h5 : (s * 0 + s - 1) / s = 0 := Nat.div_eq_of_lt (by omega)
            simpa using h5
          · have h4 : s * q + s - 1 = (s - 1) + q * s := by
              have h6 := Nat.mul_comm s q
              omega
            rw [h4, Nat.add_mul_div_right _ _ hs, Nat.div_eq_of_lt (by omega),
              Nat.mul_div_cancel_left _ hs]
            omega
        have hfn : List.filter (fun i => i % s == 0) [n] = [n] := by
          have h7 : n % s = 0 := Nat.dvd_iff_mod_eq_zero.mp hdvd
          have hb : (n % s == 0) = true := by
            rw [beq_iff_eq]
            exact h7
          simp [List.filter, hb]
        rw [List.range_succ, List.map_append, hfn, hq]
        congr 1
        simp only [List.map_cons, List.map_nil]
        congr 1
        exact (Nat.div_mul_cancel hdvd).symm
      · rw [hm, if_neg hdvd]
        have hfn : List.filter (fun i => i % s == 0) [n] = [] := by
          have h7 : n % s ≠ 0 := fun h => hdvd (Nat.dvd_iff_mod_eq_zero.mpr h)
          have hb : (n % s == 0) = false := by
            rw [beq_eq_false_iff_ne]
            exact h7
          simp [List.filter, hb]
        rw [hfn, List.append_nil]
        simp

/-- With stride 1 the index-aware filter keeps everything. -/
lemma filterIdxFrom_mod_one {α : Type*} :
    ∀ (l : List α) (k : Nat), filterIdxFrom (fun i => i % 1 == 0) k l = l := by
  intro l
  induction l with
  | nil => intro k; rfl
  | cons a t ih =>
      intro k
      rw [filterIdxFrom, if_pos (by simp [Nat.mod_one]), ih]

/-- The source's two successive clamp reassignments equal a
`max`/`min` clamp to ±2000. -/
lemma clamp2000_eq (x : ℚ) :
    (if (if 2000 < x then (2000:ℚ) else x) < -2000 then (-2000:ℚ)
     else if 2000 < x then (2000:ℚ) else x) = max (-2000) (min 2000 x) := by
  by_cases h1 : 2000 < x
  · rw [if_pos h1, if_neg (by norm_num), min_eq_left (le_of_lt h1),
      max_eq_right (by norm_num)]
  · rw [if_neg h1]
    by_cases h2 : x < -2000
    · rw [if_pos h2, min_eq_right (by linarith), max_eq_left (by linarith)]
    · rw [if_neg h2, min_eq_right (by linarith), max_eq_right (by linarith)]

/-- The source's pace cap `if (pace > 20) pace = 20` is `min 20`. -/
lemma cap20_eq (v : ℚ) : (if 20 < v then (20:ℚ) else v) = min 20 v := by
  rcases le_or_lt v 20 with h | h
  · rw [if_neg (not_lt.mpr h), min_eq_right h]
  · rw [if_pos h, min_eq_left h.le]

/-- The `sumSpeed`/`count` accumulating loop computes the sum and the
count of the nonzero-speed samples. -/
lemma foldl_sum_count :
    ∀ (l : List PPoint) (acc : ℚ × Nat),
      l.foldl (fun (p : ℚ × Nat) r => if r.speed ≠ 0 then (p.1 + r.speed, p.2 + 1) else p)
        acc =
      (acc.1 + ((l.filter fun r => decide (r.speed ≠ 0)).map fun r => r.speed).sum,
       acc.2 + (l.filter fun r => decide (r.speed ≠ 0)).length) := by
  intro l
  induction l with
  | nil => intro acc; simp
  | cons a t ih =>
      intro acc
      rw [List.foldl_cons]
      by_cases ha : a.speed ≠ 0
      · rw [if_pos ha, ih, List.filter_cons_of_pos (by simpa using ha)]
        simp only [List.map_cons, List.sum_cons, List.length_cons]
        rw [Prod.mk.injEq]
        exact ⟨by ring, by omega⟩
      · rw [if_neg ha, ih, List.filter_cons_of_neg (by simpa using ha)]

/-! ### Example series used by the witnesses -/

/-- A sparse series: three valid samples with large altitude variation. -/
def exSparse : List TrackRecord :=
  [⟨0, some 100, none, some 0, none⟩,
   ⟨60, some 150, none, some 500, none⟩,
   ⟨120, some 120, none, some 0, none⟩]

/-- A flat series: 21 identical valid samples at altitude 5. -/
def exFlat : List TrackRecord :=
  List.replicate 21 ⟨0, some 100, none, some 5, none⟩

/-- A two-sample valid subset used to exercise the recovery search. -/
def exRecover : List VRec :=
  [⟨0, 50, 100, none⟩, ⟨60, 49, 90, none⟩]

/-- A two-sample series whose valid subset is `exRecover`. -/
def exRecoverT : List TrackRecord :=
  [⟨0, some 100, none, some 50, none⟩, ⟨60, some 90, none, some 49, none⟩]

/-- Two pace-chart points: speeds 3 m/s and 0 m/s in one window. -/
def exPace : List PPoint := [⟨0, 100, 3⟩, ⟨5, 101, 0⟩]

/-- A synthetic single-hill series sampled every 30 s: altitude rises
from 0 to 100 m at 360 s and falls back to 0, heart rate peaks at 170
there and decays to 131. -/
def exHill : List TrackRecord :=
  [⟨0, some 120, none, some 0, none⟩,
   ⟨30, some 120, none, some 0, none⟩,
   ⟨60, some 121, none, some 0, none⟩,
   ⟨90, some 122, none, some 0, none⟩,
   ⟨120, some 130, none, some 20, none⟩,
   ⟨150, some 140, none, some 35, none⟩,
   ⟨180, some 150, none, some 50, none⟩,
   ⟨210, some 155, none, some 65, none⟩,
   ⟨240, some 160, none, some 80, none⟩,
   ⟨270, some 165, none, some 90, none⟩,
   ⟨300, some 168, none, some 95, none⟩,
   ⟨330, some 169, none, some 98, none⟩,
   ⟨360, some 170, none, some 100, none⟩,
   ⟨390, some 165, none, some 95, none⟩,
   ⟨420, some 160, none, some 85, none⟩,
   ⟨450, some 150, none, some 70, none⟩,
   ⟨480, some 145, none, some 55, none⟩,
   ⟨510, some 140, none, some 40, none⟩,
   ⟨540, some 138, none, some 25, none⟩,
   ⟨570, some 136, none, some 10, none⟩,
   ⟨600, some 135, none, some 0, none⟩,
   ⟨630, some 134, none, some 0, none⟩,
   ⟨660, some 133, none, some 0, none⟩,
   ⟨690, some 132, none, some 0, none⟩,
   ⟨720, some 131, none, some 0, none⟩]

/-- The valid subset of `exHill`, written out. -/
def vHill : List VRec :=
  [⟨0, 0, 120, none⟩, ⟨30, 0, 120, none⟩, ⟨60, 0, 121, none⟩, ⟨90, 0, 122, none⟩,
   ⟨120, 20, 130, none⟩, ⟨150, 35, 140, none⟩, ⟨180, 50, 150, none⟩,
   ⟨210, 65, 155, none⟩, ⟨240, 80, 160, none⟩, ⟨270, 90, 165, none⟩,
   ⟨300, 95, 168, none⟩, ⟨330, 98, 169, none⟩, ⟨360, 100, 170, none⟩,
   ⟨390, 95, 165, none⟩, ⟨420, 85, 160, none⟩, ⟨450, 70, 150, none⟩,
   ⟨480, 55, 145, none⟩, ⟨510, 40, 140, none⟩, ⟨540, 25, 138, none⟩,
   ⟨570, 10, 136, none⟩, ⟨600, 0, 135, none⟩, ⟨630, 0, 134, none⟩,
   ⟨660, 0, 133, none⟩, ⟨690, 0, 132, none⟩, ⟨720, 0, 131, none⟩]

end HikeIQ

namespace HikeIQ

/-! ### Claim theorems -/

set_option maxHeartbeats 4000000 in
/-- End-to-end scenario (spec §8, single symmetric hill): the detector
accepts exactly the altitude apex, and the emitted recovery row carries
recoveries 10, 25 and 37 bpm at the three offsets. -/
theorem hill_scenario :
    validRecords exHill = vHill ∧
    detectPeaks vHill = [12] ∧
    hillPeaks exHill =
      [⟨12, 360, 100, 170, some 160, some 145, some 133,
        some 10, some 25, some 37, 0⟩] := by
  have hv : validRecords exHill = vHill := by
    norm_num [validRecords, toValid, exHill, vHill, List.filterMap_cons]
  have hd : detectPeaks vHill = [12] := by
    have hr : List.range (vHill.length) =
        [0,1,2,3,4,5,6,7,8,9,10,11,12,13,14,15,16,17,18,19,20,21,22,23,24] := by rfl
    rw [detectPeaks, if_neg (by norm_num [vHill]), hr]
    norm_num [vHill, List.foldl_cons, isLocalMax, backNeighbors, fwdNeighbors,
      minAfter, prominence, spacingOK, vget, List.takeWhile, min_def,
      abs_of_nonpos, abs_of_nonneg]
  refine ⟨hv, hd, ?_⟩
  have hmk : mkHillPeak vHill 12 =
      ⟨12, 360, 100, 170, some 160, some 145, some 133,
        some 10, some 25, some 37, 0⟩ := by
    norm_num [mkHillPeak, findHRAtOffset, closestLoop, vget, vHill,
      abs_of_nonpos, abs_of_nonneg]
  simp only [hillPeaks, hv, hd, List.map_cons, List.map_nil, hmk]
  norm_num [List.filter]

/-- C1: on a series with non-decreasing `elapsedTime` the detected
peak list is chained with `elapsedTime` gaps of at least 120 seconds
between consecutive accepted peaks, hence strictly increasing in
`elapsedTime`, and every accepted peak's prominence — its altitude
minus the minimum altitude among valid-subset samples within the
following 300 seconds (`minAltWithin`) — is at least 15. -/
theorem c1_peak_ordering_spacing_prominence (records : List TrackRecord)
    (h : TimeSorted records) :
    (detectPeaks (validRecords records)).Chain'
      (fun i j => (vget (validRecords records) i).elapsedTime + 120 ≤
        (vget (validRecords records) j).elapsedTime) ∧
    (detectPeaks (validRecords records)).Pairwise
      (fun i j => (vget (validRecords records) i).elapsedTime <
        (vget (validRecords records) j).elapsedTime) ∧
    ∀ i ∈ detectPeaks (validRecords records),
      15 ≤ (vget (validRecords records) i).altitude -
        minAltWithin (validRecords records) i := by
  obtain ⟨hchain, hprom⟩ := detectPeaks_inv (validRecords records)
  have hpair := chain_to_pairwise
    (fun a b c (h1 : (vget (validRecords records) a).elapsedTime + 120 ≤ _)
      (h2 : (vget (validRecords records) b).elapsedTime + 120 ≤ _) => by linarith)
    hchain
  refine ⟨hchain, hpair.imp ?_, ?_⟩
  · intro a b hab
    linarith
  · intro i hi
    have hp := hprom i hi
    rw [prominence,
      minAfter_eq_minAltWithin (validRecords_pairwise_of_timeSorted h) i] at hp
    exact hp

/-- Witness for C1: the single-hill series is time-sorted and the
three conclusions hold of its peak list. -/
theorem c1_witness :
    TimeSorted exHill ∧
    ((detectPeaks (validRecords exHill)).Chain'
      (fun i j => (vget (validRecords exHill) i).elapsedTime + 120 ≤
        (vget (validRecords exHill) j).elapsedTime) ∧
    (detectPeaks (validRecords exHill)).Pairwise
      (fun i j => (vget (validRecords exHill) i).elapsedTime <
        (vget (validRecords exHill) j).elapsedTime) ∧
    ∀ i ∈ detectPeaks (validRecords exHill),
      15 ≤ (vget (validRecords exHill) i).altitude -
        minAltWithin (validRecords exHill) i) := by
  have hts : TimeSorted exHill := by
    norm_num [TimeSorted, exHill, List.chain'_cons, List.chain'_singleton]
  exact ⟨hts, c1_peak_ordering_spacing_prominence exHill hts⟩

/-- C2: on a time-sorted series the recovery analyzer, searching the
valid subset forward only from the peak's index, settles on a sample
`r` whose `elapsedTime` is closest to the target `t0 + offset` among
all forward samples; the offset's heart-rate lookup is `r`'s heart rate
exactly when `r` is within 15 seconds of the target and the "no data"
marker `none` otherwise, and correspondingly the recovery value is
exactly `hrPeak - r.heartRate` when matched and `none` (never zero)
otherwise. -/
theorem c2_recovery_closest_match (records : List TrackRecord)
    (h : TimeSorted records) (peakIdx : Nat) (offset : ℚ)
    (hidx : peakIdx < (validRecords records).length) :
    ∃ r ∈ (validRecords records).drop peakIdx,
      (∀ s ∈ (validRecords records).drop peakIdx,
        |r.elapsedTime - ((vget (validRecords records) peakIdx).elapsedTime + offset)| ≤
          |s.elapsedTime - ((vget (validRecords records) peakIdx).elapsedTime + offset)|) ∧
      findHRAtOffset (validRecords records) peakIdx offset =
        (if |r.elapsedTime -
              ((vget (validRecords records) peakIdx).elapsedTime + offset)| ≤ 15
         then some r.heartRate else none) ∧
      (findHRAtOffset (validRecords records) peakIdx offset).map
          (fun hr => (vget (validRecords records) peakIdx).heartRate - hr) =
        (if |r.elapsedTime -
              ((vget (validRecords records) peakIdx).elapsedTime + offset)| ≤ 15
         then some ((vget (validRecords records) peakIdx).heartRate - r.heartRate)
         else none) := by
  have hne : (validRecords records).drop peakIdx ≠ [] := by
    intro hnil
    have := List.length_drop peakIdx (validRecords records)
    rw [hnil] at this
    simp at this
    omega
  obtain ⟨q, hq⟩ := closestLoop_ne_none
    ((vget (validRecords records) peakIdx).elapsedTime + offset) _ hne
  obtain ⟨qr, qd⟩ := q
  obtain ⟨hcons, hprov⟩ := closestLoop_consistent _ _ none (by simp) _ hq
  have hmem : qr ∈ (validRecords records).drop peakIdx := by
    rcases hprov with hm | hm
    · exact hm
    · exact absurd hm (by simp)
  have hpairdrop : ((validRecords records).drop peakIdx).Pairwise
      (fun a b => a.elapsedTime ≤ b.elapsedTime) :=
    List.Pairwise.sublist (List.drop_sublist peakIdx (validRecords records))
      (validRecords_pairwise_of_timeSorted h)
  obtain ⟨hmin, _⟩ := closestLoop_min _ _ none hpairdrop (by simp) _ hq
  have hfind : findHRAtOffset (validRecords records) peakIdx offset =
      (if qd ≤ 15 then some qr.heartRate else none) := by
    rw [findHRAtOffset, hq]
  simp only at hcons
  refine ⟨qr, hmem, ?_, ?_, ?_⟩
  · intro s hs
    rw [← hcons]
    exact hmin s hs
  · rw [hfind, hcons]
  · rw [hfind, hcons]
    by_cases habs : |qr.elapsedTime -
        ((vget (validRecords records) peakIdx).elapsedTime + offset)| ≤ 15
    · rw [if_pos habs, if_pos habs]
      rfl
    · rw [if_neg habs, if_neg habs]
      rfl

/-- Witness for C2: the two-sample series, peak index 0, offset 60:
the closest forward sample (at 60 s, heart rate 90) is matched. -/
theorem c2_witness :
    TimeSorted exRecoverT ∧ 0 < (validRecords exRecoverT).length ∧
    ∃ r ∈ (validRecords exRecoverT).drop 0,
      (∀ s ∈ (validRecords exRecoverT).drop 0,
        |r.elapsedTime - ((vget (validRecords exRecoverT) 0).elapsedTime + 60)| ≤
          |s.elapsedTime - ((vget (validRecords exRecoverT) 0).elapsedTime + 60)|) ∧
      findHRAtOffset (validRecords exRecoverT) 0 60 =
        (if |r.elapsedTime - ((vget (validRecords exRecoverT) 0).elapsedTime + 60)| ≤ 15
         then some r.heartRate else none) ∧
      (findHRAtOffset (validRecords exRecoverT) 0 60).map
          (fun hr => (vget (validRecords exRecoverT) 0).heartRate - hr) =
        (if |r.elapsedTime - ((vget (validRecords exRecoverT) 0).elapsedTime + 60)| ≤ 15
         then some ((vget (validRecords exRecoverT) 0).heartRate - r.heartRate)
         else none) := by
  have hts : TimeSorted exRecoverT := by
    rw [TimeSorted, exRecoverT]
    exact List.chain'_cons.mpr ⟨by norm_num, List.chain'_singleton _⟩
  have hidx : 0 < (validRecords exRecoverT).length := by
    simp [validRecords, exRecoverT, toValid]
  exact ⟨hts, hidx, c2_recovery_closest_match exRecoverT hts 0 60 hidx⟩

/-- C7: for a non-empty input of `n` points and point budget `M > 0`,
with stride `s = ceil(n / M)`, the downsampler outputs exactly the
input samples at indices `0, s, 2s, …` (original values, no
averaging); the first sample is always included, the input is returned
unchanged when `n ≤ M`, and the output length is at most `M`. -/
theorem c7_downsample_contract {α : Type*} (d : α) (l : List α) (M : Nat)
    (hne : l ≠ []) (hM : 0 < M) :
    downsample M l =
      (stridedIndices l.length ((l.length + M - 1) / M)).map (fun i => l.getD i d) ∧
    (downsample M l).head? = l.head? ∧
    (l.length ≤ M → downsample M l = l) ∧
    (downsample M l).length ≤ M := by
  have hn : 0 < l.length := List.length_pos.mpr hne
  have hs : 0 < (l.length + M - 1) / M := Nat.div_pos (by omega) hM
  have hmain : downsample M l =
      (stridedIndices l.length ((l.length + M - 1) / M)).map (fun i => l.getD i d) := by
    simp only [downsample]
    rw [filterIdxFrom_eq _ d l 0]
    have hcongr : List.filter (fun i => (0 + i) % ((l.length + M - 1) / M) == 0)
        (List.range l.length) =
        List.filter (fun i => i % ((l.length + M - 1) / M) == 0)
        (List.range l.length) := by
      apply List.filter_congr
      intro x _
      rw [Nat.zero_add]
    rw [hcongr, range_filter_mod_eq_strided _ hs]
  have hm1 : 0 < (l.length + (l.length + M - 1) / M - 1) / ((l.length + M - 1) / M) :=
    Nat.div_pos (by omega) hs
  refine ⟨hmain, ?_, ?_, ?_⟩
  · rw [hmain, stridedIndices]
    obtain ⟨m, hm⟩ : ∃ m, (l.length + (l.length + M - 1) / M - 1) /
        ((l.length + M - 1) / M) = m + 1 :=
      ⟨(l.length + (l.length + M - 1) / M - 1) / ((l.length + M - 1) / M) - 1,
        by omega⟩
    rw [hm, List.range_succ_eq_map]
    cases l with
    | nil => exact absurd rfl hne
    | cons a t => simp
  · intro hle
    have hs1 : (l.length + M - 1) / M = 1 :=
      Nat.div_eq_of_lt_le (by omega) (by omega)
    simp only [downsample, hs1]
    exact filterIdxFrom_mod_one l 0
  · rw [hmain, List.length_map, stridedIndices, List.length_map, List.length_range]
    have key : l.length ≤ M * ((l.length + M - 1) / M) := by
      have hdm := Nat.div_add_mod (l.length + M - 1) M
      have hr : (l.length + M - 1) % M < M := Nat.mod_lt _ hM
      omega
    rw [Nat.div_le_iff_le_mul_add_pred hs, Nat.mul_comm]
    omega


/-- Witness for C7: eight points with budget 3 give stride 3 and the
three samples at indices 0, 3 and 6. -/
theorem c7_witness :
    ([10, 20, 30, 40, 50, 60, 70, 80] : List ℚ) ≠ [] ∧ 0 < 3 ∧
    (downsample 3 ([10, 20, 30, 40, 50, 60, 70, 80] : List ℚ) =
      (stridedIndices ([10, 20, 30, 40, 50, 60, 70, 80] : List ℚ).length
          ((([10, 20, 30, 40, 50, 60, 70, 80] : List ℚ).length + 3 - 1) / 3)).map
        (fun i => ([10, 20, 30, 40, 50, 60, 70, 80] : List ℚ).getD i 0) ∧
    (downsample 3 ([10, 20, 30, 40, 50, 60, 70, 80] : List ℚ)).head? =
      ([10, 20, 30, 40, 50, 60, 70, 80] : List ℚ).head? ∧
    (([10, 20, 30, 40, 50, 60, 70, 80] : List ℚ).length ≤ 3 →
      downsample 3 ([10, 20, 30, 40, 50, 60, 70, 80] : List ℚ) =
        [10, 20, 30, 40, 50, 60, 70, 80]) ∧
    (downsample 3 ([10, 20, 30, 40, 50, 60, 70, 80] : List ℚ)).length ≤ 3) := by
  refine ⟨by simp, by norm_num, ?_⟩
  exact c7_downsample_contract 0 [10, 20, 30, 40, 50, 60, 70, 80] 3 (by simp) (by norm_num)

/-- C8: the vertical-rate estimate for index `i` equals the claim's
formula: boundary indices `lo = max(0, i−5)` and `hi = min(n−1, i+5)`,
rate `(altitude[hi] − altitude[lo])` divided by the time span and
scaled to per-hour, `0` when the span is at most the epsilon 3.6 s,
clamped to ±2000 units/hour (SI mode). -/
theorem c8_vertical_rate_secant (arr : List EPoint) (i : Nat) :
    vamAt arr i = vamSpecAt arr i := by
  simp only [vamAt, vamSpecAt]
  have hlo : (max 0 ((i : ℤ) - 5)).toNat = i - 5 := by omega
  rw [hlo]
  set p := eget arr (i - 5) with hp
  set q := eget arr (min (arr.length - 1) (i + 5)) with hq2
  by_cases h : 18 / 5 < q.elapsedTime - p.elapsedTime
  · rw [if_pos h,
      if_pos (show (1:ℚ)/1000 < (q.elapsedTime - p.elapsedTime)/3600 by linarith),
      div_div_eq_mul_div]
    exact clamp2000_eq _
  · rw [if_neg h,
      if_neg (show ¬ ((1:ℚ)/1000 < (q.elapsedTime - p.elapsedTime)/3600) by
        intro hx
        exact h (by linarith))]
    exact clamp2000_eq 0

/-- Counterexample for C9: in a window holding speeds 3 and 0 the code
averages only the nonzero speeds (mean 3, pace 50/9 min/km) while the
claim's mean over all present values is 3/2 (pace 100/9 min/km); and at
average speed exactly 0.1 m/s the code reports the sentinel 0 while the
claim's wording ("below 0.1 → sentinel, otherwise capped") yields 20. -/
theorem c9_counterexample :
    paceAt exPace 0 = 50 / 9 ∧ claimPaceAt exPace 0 = 100 / 9 ∧
    paceAt exPace 0 ≠ claimPaceAt exPace 0 ∧
    paceAt [(⟨0, 100, 1/10⟩ : PPoint)] 0 = 0 ∧
    claimPaceAt [(⟨0, 100, 1/10⟩ : PPoint)] 0 = 20 := by
  have h1 : paceAt exPace 0 = 50 / 9 := by
    norm_num [paceAt, avgSpeedAt, paceWindow, exPace]
  have h2 : claimPaceAt exPace 0 = 100 / 9 := by
    norm_num [claimPaceAt, paceWindow, exPace, min_def]
  refine ⟨h1, h2, ?_, ?_, ?_⟩
  · rw [h1, h2]
    norm_num
  · norm_num [paceAt, avgSpeedAt, paceWindow]
  · norm_num [claimPaceAt, paceWindow, min_def]

/-- C9 (amended): the average speed is the arithmetic mean of the
present *nonzero* speed values of the centered window of radius 5
(zero speeds are skipped exactly like absent ones, 0 when none remain);
a pace is the stationary sentinel 0 whenever that average is at most
0.1 m/s — in particular an all-zero-speed window reports the sentinel,
never an infinite or NaN value — and otherwise `(1000/avg)/60`, capped
at 20 by clamping. -/
theorem c9_pace_amended (arr : List PPoint) (i : Nat) :
    paceAt arr i = amendedPaceSpecAt arr i := by
  simp only [paceAt, amendedPaceSpecAt, avgSpeedAt]
  rw [foldl_sum_count]
  simp only [zero_add, Nat.zero_add]
  set nz := (paceWindow arr i).filter fun r => decide (r.speed ≠ 0) with hnz
  by_cases hlen : nz.length = 0
  · rw [hlen]
    norm_num
  · rw [if_pos (Nat.pos_of_ne_zero hlen), if_neg hlen]
    by_cases havg : (1:ℚ)/10 < (nz.map fun r => r.speed).sum / nz.length
    · rw [if_pos havg, if_neg (not_le.mpr havg), cap20_eq]
    · rw [if_neg havg, if_pos (not_lt.mp havg)]
      norm_num


/-- C10: a matched offset of at least 60 seconds matches a sample of
the forward search space whose time is at least `t0 + offset - 15`,
hence at least 45 seconds after — and in particular strictly after —
the peak time `t0`; the peak sample is never its own recovery match. -/
theorem c10_match_strictly_after_peak (v : List VRec) (peakIdx : Nat) (offset : ℚ)
    (hoff : 60 ≤ offset) (hr : ℚ)
    (hmatch : findHRAtOffset v peakIdx offset = some hr) :
    ∃ q ∈ v.drop peakIdx,
      q.heartRate = hr ∧
      (vget v peakIdx).elapsedTime + offset - 15 ≤ q.elapsedTime ∧
      (vget v peakIdx).elapsedTime + 45 ≤ q.elapsedTime ∧
      (vget v peakIdx).elapsedTime < q.elapsedTime ∧
      q ≠ vget v peakIdx := by
  simp only [findHRAtOffset] at hmatch
  cases hcl : closestLoop ((vget v peakIdx).elapsedTime + offset) (v.drop peakIdx) none with
  | none =>
      rw [hcl] at hmatch
      exact absurd hmatch (by simp)
  | some q =>
      obtain ⟨qr, qd⟩ := q
      rw [hcl] at hmatch
      have hmatch2 : (if qd ≤ 15 then some qr.heartRate else none) = some hr := hmatch
      by_cases hle : qd ≤ 15
      · rw [if_pos hle] at hmatch2
        have hhr : qr.heartRate = hr := Option.some_inj.mp hmatch2
        obtain ⟨hcons, hprov⟩ := closestLoop_consistent _ _ none (by simp) _ hcl
        simp only at hcons
        have hmem : qr ∈ v.drop peakIdx := by
          rcases hprov with hm | hm
          · exact hm
          · exact absurd hm (by simp)
        have habs : |qr.elapsedTime - ((vget v peakIdx).elapsedTime + offset)| ≤ 15 :=
          hcons ▸ hle
        have h1 : (vget v peakIdx).elapsedTime + offset - 15 ≤ qr.elapsedTime := by
          have h2 := (abs_le.mp habs).1
          linarith
        refine ⟨qr, hmem, hhr, h1, by linarith, by linarith, ?_⟩
        intro heq
        have hlt : (vget v peakIdx).elapsedTime < qr.elapsedTime := by linarith
        rw [heq] at hlt
        exact lt_irrefl _ hlt
      · rw [if_neg hle] at hmatch2
        exact absurd hmatch2 (by simp)

/-- Witness for C10: on the two-sample valid subset the 60-second
offset matches the sample at 60 s, strictly after the peak at 0 s. -/
theorem c10_witness :
    (60 : ℚ) ≤ 60 ∧ findHRAtOffset exRecover 0 60 = some 90 ∧
    ∃ q ∈ exRecover.drop 0,
      q.heartRate = 90 ∧
      (vget exRecover 0).elapsedTime + 60 - 15 ≤ q.elapsedTime ∧
      (vget exRecover 0).elapsedTime + 45 ≤ q.elapsedTime ∧
      (vget exRecover 0).elapsedTime < q.elapsedTime ∧
      q ≠ vget exRecover 0 := by
  have hm : findHRAtOffset exRecover 0 60 = some 90 := by
    norm_num [findHRAtOffset, closestLoop, vget, exRecover,
      List.getD_cons_zero, abs_of_nonpos, abs_of_nonneg]
  exact ⟨le_refl _, hm,
    c10_match_strictly_after_peak exRecover 0 60 (le_refl _) 90 hm⟩

/-- C3: a Recovery Record for an accepted peak appears in the final
output if and only if at least one of the three offsets produced a
match: `hillPeaks` equals the detected-peak list first filtered by
"some offset matched" and then mapped to rows, so a peak whose three
recovery values are all `none` is dropped entirely. -/
theorem c3_record_emitted_iff_some_offset_matched (records : List TrackRecord) :
    hillPeaks records =
      ((detectPeaks (validRecords records)).filter fun i =>
          (findHRAtOffset (validRecords records) i 60).isSome ||
          (findHRAtOffset (validRecords records) i 120).isSome ||
          (findHRAtOffset (validRecords records) i 300).isSome).map
        (mkHillPeak (validRecords records)) := by
  rw [hillPeaks]
  simp only [List.filter_map]
  congr 1
  apply List.filter_congr
  intro i _
  have hmap : ∀ (o : Option ℚ) (f : ℚ → ℚ), (o.map f).isSome = o.isSome := by
    intro o f; cases o <;> rfl
  simp [Function.comp, mkHillPeak, hmap]

/-- C4: with fewer than 20 valid samples (the empty list included) the
peak detector returns an empty result, the whole recovery table is
empty, and no error occurs (the functions are total). -/
theorem c4_sparse_series_empty_result (records : List TrackRecord)
    (h : (validRecords records).length < 20) :
    hillPeaks records = [] ∧ detectPeaks (validRecords records) = [] := by
  have hd : detectPeaks (validRecords records) = [] := by
    rw [detectPeaks, if_pos h]
  exact ⟨by simp [hillPeaks, hd], hd⟩

/-- Witness for C4: a three-sample series with 500 m of altitude
variation still produces no peaks, and so does the empty series. -/
theorem c4_witness :
    ((validRecords exSparse).length < 20 ∧ hillPeaks exSparse = []) ∧
    ((validRecords []).length < 20 ∧ hillPeaks [] = []) := by
  have h : (validRecords exSparse).length < 20 := by
    simp [validRecords, exSparse, toValid]
  have h0 : (validRecords []).length < 20 := by
    simp [validRecords]
  exact ⟨⟨h, (c4_sparse_series_empty_result exSparse h).1⟩,
    ⟨h0, (c4_sparse_series_empty_result [] h0).1⟩⟩

/-- C5: on a time-sorted series, a candidate index of the valid subset
passes the local-maximum test if and only if its altitude is at least
the altitude of every other sample whose `elapsedTime` differs from its
own by at most 60 seconds (the neighbors gathered backward and forward
until the bound is exceeded); the comparison is `≥`, so equal-altitude
plateau samples pass. -/
theorem c5_local_max_characterisation (records : List TrackRecord)
    (h : TimeSorted records) (i : Nat)
    (hi : i < (validRecords records).length) :
    isLocalMax (validRecords records) i = true ↔
      ∀ (j : Nat) (hj : j < (validRecords records).length), j ≠ i →
        |((validRecords records).get ⟨j, hj⟩).elapsedTime -
          (vget (validRecords records) i).elapsedTime| ≤ 60 →
        ((validRecords records).get ⟨j, hj⟩).altitude ≤
          (vget (validRecords records) i).altitude :=
  isLocalMax_iff (validRecords_pairwise_of_timeSorted h) hi

/-- Witness for C5: the characterisation instantiated on the two-sample
series at index 0. -/
theorem c5_witness :
    TimeSorted exRecoverT ∧ 0 < (validRecords exRecoverT).length ∧
    (isLocalMax (validRecords exRecoverT) 0 = true ↔
      ∀ (j : Nat) (hj : j < (validRecords exRecoverT).length), j ≠ 0 →
        |((validRecords exRecoverT).get ⟨j, hj⟩).elapsedTime -
          (vget (validRecords exRecoverT) 0).elapsedTime| ≤ 60 →
        ((validRecords exRecoverT).get ⟨j, hj⟩).altitude ≤
          (vget (validRecords exRecoverT) 0).altitude) := by
  have hts : TimeSorted exRecoverT := by
    rw [TimeSorted, exRecoverT]
    exact List.chain'_cons.mpr ⟨by norm_num, List.chain'_singleton _⟩
  have hidx : 0 < (validRecords exRecoverT).length := by
    simp [validRecords, exRecoverT, toValid]
  exact ⟨hts, hidx, c5_local_max_characterisation exRecoverT hts 0 hidx⟩

/-- C6: on a constant-altitude valid subset every candidate's
prominence is zero, below the threshold 15, so the peak detector (and
with it the recovery table) returns an empty list. -/
theorem c6_constant_altitude_empty (records : List TrackRecord) (c : ℚ)
    (hc : ∀ r ∈ validRecords records, r.altitude = c) :
    detectPeaks (validRecords records) = [] ∧ hillPeaks records = [] := by
  have hd : detectPeaks (validRecords records) = [] := by
    rw [detectPeaks]
    by_cases hlen : (validRecords records).length < 20
    · rw [if_pos hlen]
    · rw [if_neg hlen]
      refine foldl_inv _ (fun acc => acc = []) _ _ rfl ?_
      intro x i hi hx
      subst hx
      have hi2 : i < (validRecords records).length := List.mem_range.mp hi
      have hprom : prominence (validRecords records) i = 0 := by
        rw [prominence, minAfter_const hc hi2, hc _ (vget_mem hi2), sub_self]
      have hdec : decide (15 ≤ prominence (validRecords records) i) = false := by
        rw [hprom]
        exact decide_eq_false (by norm_num)
      simp [hdec]
  exact ⟨hd, by simp [hillPeaks, hd]⟩

/-- Witness for C6: 21 samples at constant altitude 5 (enough to pass
the sparsity guard) produce no peaks. -/
theorem c6_witness :
    (∀ r ∈ validRecords exFlat, r.altitude = 5) ∧ hillPeaks exFlat = [] := by
  have hc : ∀ r ∈ validRecords exFlat, r.altitude = 5 := by
    intro r hr
    rw [validRecords, List.mem_filterMap] at hr
    rcases hr with ⟨a, ha, hta⟩
    have := List.eq_of_mem_replicate ha
    subst this
    have : r = ⟨0, 5, 100, none⟩ := by
      have h2 : toValid (⟨0, some 100, none, some 5, none⟩ : TrackRecord) =
          some ⟨0, 5, 100, none⟩ := rfl
      rw [h2] at hta
      exact (Option.some_inj.mp hta).symm
    rw [this]
  exact ⟨hc, (c6_constant_altitude_empty exFlat 5 hc).2⟩

end HikeIQ
